import Mathlib

/-!
Shallow embedding of the EVM transaction fetcher
(`src/detailed_tx_fetcher.py` together with the tables of
`src/constants.py`).  Python dicts become association lists with
exact-string lookup, Python exceptions become `Except` / explicit
failure branches of the environment, `time.sleep` and every network
request become events in an explicit trace, and the adaptive request
delay is an exact rational (doubling and `min` on Python floats are
exact, so the rational model is faithful).
-/

/-- Python `str.lower()` (ASCII suffices for hex addresses and names). -/
def pyLower (s : String) : String := ⟨s.data.map Char.toLower⟩

def pyInAux (needle : List Char) : List Char → Bool
  | [] => needle.isEmpty
  | c :: rest => needle.isPrefixOf (c :: rest) || pyInAux needle rest

/-- Python `needle in hay` substring test. -/
def pyIn (needle hay : String) : Bool := pyInAux needle.data hay.data

/-- Python `s[-n:]`. -/
def strTakeRight (s : String) (n : Nat) : String :=
  ⟨s.data.drop (s.data.length - n)⟩

/-- Python truthiness of an optional string (`None` and `''` are falsy). -/
def optTruthy : Option String → Bool
  | none => false
  | some s => s != ""

/-- Transfer event signature hash compared at line 87 of the source. -/
def TRANSFER_SIG : String :=
  "0xddf252ad1be2c89b69c2b068fc378daa952ba7f163c4a11628f55a4df523b3ef"

/-- `CONTRACT_TYPES` from `src/constants.py`, in dict insertion order. -/
def CONTRACT_TYPES : List (String × List String) :=
  [("DEX", ["Uniswap", "Sushiswap", "PancakeSwap"]),
   ("Lending", ["Aave", "Compound", "MakerDAO"]),
   ("Staking", ["Lido", "Rocket Pool"]),
   ("NFT_Marketplace", ["OpenSea", "LooksRare"]),
   ("Bridge", ["Polygon Bridge", "Arbitrum Bridge"]),
   ("Yield", ["Yearn", "Curve"])]

/-- `CEX_ADDRESSES` from `src/constants.py`. -/
def CEX_ADDRESSES : List (String × List (String × String)) :=
  [("ethereum",
    [("0x28C6c06298d514Db089934071355E5743bf21d60", "Binance"),
     ("0x8958618332Df62AF93053Bb9C96D4C73d6c4M1a", "Coinbase"),
     ("0xdAC17F958D2ee523a2206206994597C13D831ec7", "Tether Treasury"),
     ("0x2FAF487A4414Fe77e2327F0bf4AE2a264a776AD2", "FTX")])]

structure ContractInfo where
  name : String
  verified : Bool
  type : String
deriving DecidableEq, Repr

structure TokenInfo where
  symbol : String
  decimals : Nat
  type : String
deriving DecidableEq, Repr

structure Transfer where
  tokenAddress : String
  tokenSymbol : String
  tokenDecimals : Nat
  fromAddr : String
  toAddr : String
  value : ℚ
  tokenType : String
deriving DecidableEq, Repr

structure Log where
  address : String
  topics : List String
  dataVal : Nat
deriving DecidableEq, Repr

structure Receipt where
  toAddr : Option String
  status : Nat
  gasUsed : Nat
  logs : List Log
deriving DecidableEq, Repr

structure Tx where
  hash : String
  fromAddr : String
  toAddr : Option String
  value : Nat
  gasPrice : Nat
  blockNumber : Nat
  nonce : Nat
deriving DecidableEq, Repr

structure Block where
  timestamp : Int
  transactions : List Tx
deriving DecidableEq, Repr

/-- Outcome of the explorer `getsourcecode` REST call: either some
exception escaped (`raised`), or a parsed JSON body with its `status`
(`'1'` or not), `ContractName` and `SourceCode` fields. -/
inductive ExplorerResult where
  | raised (msg : String)
  | resp (statusOne : Bool) (contractName : String) (sourceCode : String)
deriving DecidableEq, Repr

/-- The mocked upstream: explorer REST endpoint, `web3.eth.contract`
construction (which can raise), `symbol()` / `decimals()` probes
(`none` = the call raised), receipts, blocks and latest heights. -/
structure Env where
  explorer : String → String → ExplorerResult
  ctorFails : String → Bool
  symbol : String → Option String
  decimals : String → Option Nat
  getReceipt : String → Except String Receipt
  getBlock : String → Nat → Except String Block
  latestHeight : String → Nat

/-- Observable events of a run: pacing sleeps (carrying the delay used,
in milliseconds — the source's 0.2 time-units are 200 here; doubling
and the `min` cap behave identically in this unit), the fixed 0.1s
per-transaction sleep, block / receipt fetches, explorer queries,
`symbol()` / `decimals()` eth_calls, the extra 10s rate-limit cooldown,
and the append of a finished record. -/
inductive Ev where
  | sleep (d : Nat)
  | txSleep
  | blockFetch (chain : String) (n : Nat)
  | receiptFetch (h : String)
  | explorerFetch (a : String)
  | symCall (a : String)
  | decCall (a : String)
  | cooldown
  | emit (txHash : String)
deriving DecidableEq, Repr

abbrev CCache := List (String × ContractInfo)
abbrev TCache := List (String × TokenInfo)

/-- `TransactionAnalyzer._determine_contract_type`: first keyword of the
first category matching (case-insensitively, as substring of name or
source) wins. -/
def findContractType : List (String × List String) → String → String → String
  | [], _, _ => "unknown"
  | (t, kws) :: rest, cn, sc =>
    if kws.any (fun k => pyIn (pyLower k) cn || pyIn (pyLower k) sc) then t
    else findContractType rest cn sc

def determineContractType (contractName sourceCode : String) : String :=
  findContractType CONTRACT_TYPES (pyLower contractName) (pyLower sourceCode)

/-- `TransactionAnalyzer.get_contract_info`.  Exact-string cache lookup;
on a miss the explorer is queried; a parseable verified answer or the
`symbol()` probe result (positive or negative) is cached; an exception
escaping the query or the contract constructor yields an uncached
`Unknown` fallback (lines 64–66 of the source). -/
def getContractInfo (env : Env) (chain : String) (cache : CCache) (address : String) :
    ContractInfo × CCache × List Ev :=
  match cache.lookup address with
  | some info => (info, cache, [])
  | none =>
    match env.explorer chain address with
    | .raised _ => (⟨"Unknown", false, "unknown"⟩, cache, [.explorerFetch address])
    | .resp statusOne cname src =>
      if statusOne && cname != "" then
        let info : ContractInfo := ⟨cname, true, determineContractType cname src⟩
        (info, (address, info) :: cache, [.explorerFetch address])
      else if env.ctorFails address then
        (⟨"Unknown", false, "unknown"⟩, cache, [.explorerFetch address])
      else
        match env.symbol address with
        | some sym =>
          let info : ContractInfo := ⟨sym, false, "token"⟩
          (info, (address, info) :: cache, [.explorerFetch address, .symCall address])
        | none =>
          let info : ContractInfo := ⟨"Unknown Contract", false, "unknown"⟩
          (info, (address, info) :: cache, [.explorerFetch address, .symCall address])

/-- `TransactionAnalyzer._get_token_info`.  Exact-string cache lookup;
contract-constructor failure yields an uncached `unknown` fallback; a
raising `symbol()`/`decimals()` probe yields a cached `ERC721` entry. -/
def getTokenInfo (env : Env) (cache : TCache) (address : String) :
    TokenInfo × TCache × List Ev :=
  match cache.lookup address with
  | some info => (info, cache, [])
  | none =>
    if env.ctorFails address then
      (⟨"UNKNOWN", 0, "unknown"⟩, cache, [])
    else
      match env.symbol address with
      | none =>
        let info : TokenInfo := ⟨"UNKNOWN", 0, "ERC721"⟩
        (info, (address, info) :: cache, [.symCall address])
      | some sym =>
        match env.decimals address with
        | none =>
          let info : TokenInfo := ⟨"UNKNOWN", 0, "ERC721"⟩
          (info, (address, info) :: cache, [.symCall address, .decCall address])
        | some d =>
          let info : TokenInfo := ⟨sym, d, "ERC20"⟩
          (info, (address, info) :: cache, [.symCall address, .decCall address])

/-- Loop body of `TransactionAnalyzer.get_token_transfers` over the
receipt's logs. -/
def getTokenTransfersAux (env : Env) : List Log → TCache → List Transfer × TCache × List Ev
  | [], cache => ([], cache, [])
  | log :: rest, cache =>
    match log.topics with
    | [t0, t1, t2] =>
      if t0 == TRANSFER_SIG then
        let r0 := getTokenInfo env cache log.address
        let info := r0.1
        let tr : Transfer :=
          { tokenAddress := log.address
            tokenSymbol := info.symbol
            tokenDecimals := info.decimals
            fromAddr := "0x" ++ strTakeRight t1 40
            toAddr := "0x" ++ strTakeRight t2 40
            value := if info.decimals > 0 then (log.dataVal : ℚ) / 10 ^ info.decimals
                     else (log.dataVal : ℚ)
            tokenType := info.type }
        let r := getTokenTransfersAux env rest r0.2.1
        (tr :: r.1, r.2.1, r0.2.2 ++ r.2.2)
      else getTokenTransfersAux env rest cache
    | _ => getTokenTransfersAux env rest cache

/-- `TransactionAnalyzer.get_token_transfers`: fetches the receipt by
hash and decodes every 3-topic Transfer-signature log; a failing receipt
fetch yields `[]`. -/
def getTokenTransfers (env : Env) (cache : TCache) (txHash : String) :
    List Transfer × TCache × List Ev :=
  match env.getReceipt txHash with
  | .error _ => ([], cache, [.receiptFetch txHash])
  | .ok receipt =>
    let r := getTokenTransfersAux env receipt.logs cache
    (r.1, r.2.1, .receiptFetch txHash :: r.2.2)

/-- `TransactionAnalyzer.classify_transaction`. -/
def classifyTransaction (env : Env) (chain : String) (cc : CCache) (tc : TCache)
    (txHash : String) (receipt : Receipt) : String × CCache × TCache × List Ev :=
  let rT := getTokenTransfers env tc txHash
  if rT.1.length > 0 then ("token_transfer", cc, rT.2.1, rT.2.2)
  else if optTruthy receipt.toAddr then
    let rC := getContractInfo env chain cc (receipt.toAddr.getD "")
    if (CONTRACT_TYPES.lookup rC.1.type).isSome then
      (pyLower rC.1.type, rC.2.1, rT.2.1, rT.2.2 ++ rC.2.2)
    else ("unknown", rC.2.1, rT.2.1, rT.2.2 ++ rC.2.2)
  else ("unknown", cc, rT.2.1, rT.2.2)

/-- `TransactionAnalyzer.is_cex_address`: the membership test lower-cases
both sides, but the name is then read with the exact-case key, which in
Python raises a `KeyError` (modelled as `.error` carrying the key) when
the address only matches up to case. -/
def isCexAddress (chain address : String) : Except String (Bool × String) :=
  match CEX_ADDRESSES.lookup chain with
  | none => .ok (false, "")
  | some table =>
    if (table.map (fun p => pyLower p.1)).contains (pyLower address) then
      match table.lookup address with
      | some nm => .ok (true, nm)
      | none => .error address
    else .ok (false, "")

structure Record where
  chain : String
  hash : String
  fromAddr : String
  toAddr : String
  value : ℚ
  gasPrice : ℚ
  gasUsed : Nat
  blockNumber : Nat
  nonce : Nat
  timestamp : Int
  isOutgoing : Bool
  status : Nat
  tokenTransfers : Option (List Transfer)
  transactionType : String
  cexInteraction : Bool
  cexName : String
  contractName : Option String
  contractType : Option String
deriving DecidableEq, Repr

/-- `DetailedTransactionFetcher._process_detailed_transaction`.  The two
CEX resolutions may raise (`KeyError` on a case-variant table hit); the
error propagates to the caller with the cache mutations and trace that
already happened. -/
def processDetailedTransaction (env : Env) (chain : String) (cc : CCache) (tc : TCache)
    (tx : Tx) (receipt : Receipt) (address : String) (timestamp : Int) :
    Except String Record × CCache × TCache × List Ev :=
  let rT := getTokenTransfers env tc tx.hash
  let rC := classifyTransaction env chain cc rT.2.1 tx.hash receipt
  let evs := rT.2.2 ++ rC.2.2.2
  match isCexAddress chain tx.fromAddr with
  | .error k => (.error k, rC.2.1, rC.2.2.1, evs)
  | .ok (cexFrom, nameFrom) =>
    match (if optTruthy tx.toAddr then isCexAddress chain (tx.toAddr.getD "")
           else .ok (false, "")) with
    | .error k => (.error k, rC.2.1, rC.2.2.1, evs)
    | .ok (cexTo, nameTo) =>
      let base : Record :=
        { chain := chain
          hash := tx.hash
          fromAddr := tx.fromAddr
          toAddr := if optTruthy tx.toAddr then tx.toAddr.getD "" else ""
          value := (tx.value : ℚ) / 10 ^ 18
          gasPrice := (tx.gasPrice : ℚ) / 10 ^ 9
          gasUsed := receipt.gasUsed
          blockNumber := tx.blockNumber
          nonce := tx.nonce
          timestamp := timestamp
          isOutgoing := pyLower tx.fromAddr == pyLower address
          status := receipt.status
          tokenTransfers := if rT.1.length > 0 then some rT.1 else none
          transactionType := rC.1
          cexInteraction := cexFrom || cexTo
          cexName := if cexFrom then nameFrom else nameTo
          contractName := none
          contractType := none }
      if optTruthy tx.toAddr then
        let rI := getContractInfo env chain rC.2.1 (tx.toAddr.getD "")
        (.ok { base with contractName := some rI.1.name, contractType := some rI.1.type },
          rI.2.1, rC.2.2.1, evs ++ rI.2.2)
      else (.ok base, rC.2.1, rC.2.2.1, evs)

/-- `web3.is_address` format check (0x + 40 hex digits). -/
def isHexDigitChar (c : Char) : Bool :=
  c.isDigit || ('a' ≤ c && c ≤ 'f') || ('A' ≤ c && c ≤ 'F')

def isAddress (s : String) : Bool :=
  s.data.length == 42 && s.data.take 2 == ['0', 'x'] && (s.data.drop 2).all isHexDigitChar

/-- Match condition of line 224: `from` or truthy `to` equals the
watched address case-insensitively. -/
def matchesAddress (tx : Tx) (address : String) : Bool :=
  pyLower tx.fromAddr == pyLower address ||
    (optTruthy tx.toAddr && (pyLower (tx.toAddr.getD "") == pyLower address))

/-- Line 238: `if self.max_transactions and len(all_transactions) >=
self.max_transactions` — Python truthiness makes `None` and `0` both
skip the bound check. -/
def maxReached (mt : Option Nat) (len : Nat) : Bool :=
  match mt with
  | none => false
  | some m => if m == 0 then false else decide (m ≤ len)

/-- `range(end_block, start_block - 1, -1)`: the descending list
`[eb, eb-1, …, sb]` (empty when `eb < sb`). -/
def blockRange (eb sb : Nat) : List Nat := (List.range' sb (eb + 1 - sb)).reverse

inductive Outcome where
  | finished
  | errored (msg : String)
  | stopped
deriving DecidableEq, Repr

structure LoopRes where
  cc : CCache
  tc : TCache
  recs : List Record
  evs : List Ev
  outcome : Outcome
deriving DecidableEq, Repr

/-- The per-block transaction loop (lines 223–239): for each matching
transaction sleep 0.1, fetch the receipt, assemble the record, append
it and check the bound.  A raising receipt fetch or record assembly
escapes to the block-level handler (`errored`); hitting the bound
returns from the whole function (`stopped`). -/
def processTxs (env : Env) (chain address : String) (mt : Option Nat) (timestamp : Int) :
    List Tx → CCache → TCache → List Record → LoopRes
  | [], cc, tc, recs => ⟨cc, tc, recs, [], .finished⟩
  | tx :: rest, cc, tc, recs =>
    if matchesAddress tx address then
      match env.getReceipt tx.hash with
      | .error msg => ⟨cc, tc, recs, [.txSleep, .receiptFetch tx.hash], .errored msg⟩
      | .ok receipt =>
        match processDetailedTransaction env chain cc tc tx receipt address timestamp with
        | (.error k, cc', tc', pevs) =>
          ⟨cc', tc', recs, .txSleep :: .receiptFetch tx.hash :: pevs, .errored k⟩
        | (.ok rec, cc', tc', pevs) =>
          let recs' := recs ++ [rec]
          let evs := Ev.txSleep :: .receiptFetch tx.hash :: (pevs ++ [.emit tx.hash])
          if maxReached mt recs'.length then ⟨cc', tc', recs', evs, .stopped⟩
          else
            let r := processTxs env chain address mt timestamp rest cc' tc' recs'
            ⟨r.cc, r.tc, r.recs, evs ++ r.evs, r.outcome⟩
    else processTxs env chain address mt timestamp rest cc tc recs

/-- The block loop (lines 216–250): sleep the adaptive delay, fetch the
block, process its transactions; on any exception whose text contains
"Too Many Requests" double the delay (capped at 60), sleep the extra
10s cooldown and skip the block; on any other exception just skip. -/
def scanBlocks (env : Env) (chain address : String) (mt : Option Nat) :
    List Nat → Nat → CCache → TCache → List Record → LoopRes
  | [], _, cc, tc, recs => ⟨cc, tc, recs, [], .finished⟩
  | n :: rest, delay, cc, tc, recs =>
    match env.getBlock chain n with
    | .error msg =>
      if pyIn "Too Many Requests" msg then
        let r := scanBlocks env chain address mt rest (min 60000 (delay * 2)) cc tc recs
        ⟨r.cc, r.tc, r.recs, .sleep delay :: .blockFetch chain n :: .cooldown :: r.evs, r.outcome⟩
      else
        let r := scanBlocks env chain address mt rest delay cc tc recs
        ⟨r.cc, r.tc, r.recs, .sleep delay :: .blockFetch chain n :: r.evs, r.outcome⟩
    | .ok block =>
      let t := processTxs env chain address mt block.timestamp block.transactions cc tc recs
      match t.outcome with
      | .stopped => ⟨t.cc, t.tc, t.recs, .sleep delay :: .blockFetch chain n :: t.evs, .stopped⟩
      | .errored msg =>
        if pyIn "Too Many Requests" msg then
          let r := scanBlocks env chain address mt rest (min 60000 (delay * 2)) t.cc t.tc t.recs
          ⟨r.cc, r.tc, r.recs,
            .sleep delay :: .blockFetch chain n :: (t.evs ++ (.cooldown :: r.evs)), r.outcome⟩
        else
          let r := scanBlocks env chain address mt rest delay t.cc t.tc t.recs
          ⟨r.cc, r.tc, r.recs, .sleep delay :: .blockFetch chain n :: (t.evs ++ r.evs), r.outcome⟩
      | .finished =>
        let r := scanBlocks env chain address mt rest delay t.cc t.tc t.recs
        ⟨r.cc, r.tc, r.recs, .sleep delay :: .blockFetch chain n :: (t.evs ++ r.evs), r.outcome⟩

/-- The wallet-address loop (lines 206–250): invalid addresses are
skipped; for each valid address the request delay restarts at 0.2 and
the whole descending block range is scanned again.  The per-chain
analyzer caches thread through the addresses. -/
def scanAddresses (env : Env) (chain : String) (mt : Option Nat) (sb eb : Nat) :
    List String → CCache → TCache → List Record → LoopRes
  | [], cc, tc, recs => ⟨cc, tc, recs, [], .finished⟩
  | a :: rest, cc, tc, recs =>
    if isAddress a then
      let r := scanBlocks env chain a mt (blockRange eb sb) 200 cc tc recs
      match r.outcome with
      | .stopped => ⟨r.cc, r.tc, r.recs, r.evs, .stopped⟩
      | _ =>
        let r2 := scanAddresses env chain mt sb eb rest r.cc r.tc r.recs
        ⟨r2.cc, r2.tc, r2.recs, r.evs ++ r2.evs, r2.outcome⟩
    else scanAddresses env chain mt sb eb rest cc tc recs

/-- The chain loop (lines 198–250).  The `start_block` / `end_block`
parameters are overwritten in place on the first chain whose defaults
are computed, so every later chain reuses them.  Each chain has its own
analyzer whose caches start empty. -/
def fetchChains (env : Env) (addrs : List String) (mt : Option Nat) :
    List String → Option Nat → Option Nat → List Record → List Record × List Ev × Bool
  | [], _, _, recs => (recs, [], false)
  | c :: rest, sb, eb, recs =>
    let ebN := match eb with | some e => e | none => env.latestHeight c
    let sbN := match sb with | some s => s | none => ebN - 100000
    let r := scanAddresses env c mt sbN ebN addrs [] [] recs
    match r.outcome with
    | .stopped => (r.recs, r.evs, true)
    | _ =>
      let r2 := fetchChains env addrs mt rest (some sbN) (some ebN) r.recs
      (r2.1, r.evs ++ r2.2.1, r2.2.2)

/-- `DetailedTransactionFetcher.fetch_detailed_transactions` on a fresh
fetcher: records, event trace, and whether the bound stopped the scan. -/
def fetchDetailedTransactions (env : Env) (chains addrs : List String)
    (mt : Option Nat) (sb eb : Option Nat) : List Record × List Ev × Bool :=
  fetchChains env addrs mt chains sb eb []

/-- Heights of the block fetches in a trace. -/
def heightsOf (evs : List Ev) : List Nat :=
  evs.filterMap (fun e => match e with | .blockFetch _ n => some n | _ => none)

/-- Heights of the block fetches issued against one chain. -/
def chainHeightsOf (c : String) (evs : List Ev) : List Nat :=
  evs.filterMap (fun e =>
    match e with
    | .blockFetch c0 n => if c0 == c then some n else none
    | _ => none)

/-- The adaptive pacing delays actually slept, in order (milliseconds). -/
def delaysOf (evs : List Ev) : List Nat :=
  evs.filterMap (fun e => match e with | .sleep d => some d | _ => none)

/-! ### Concrete mock data shared by several claims -/

/-- A lowercase well-formed wallet address. -/
def aLow : String := "0x" ++ String.mk (List.replicate 40 'a')

/-- A second lowercase well-formed wallet address. -/
def bLow : String := "0x" ++ String.mk (List.replicate 40 'b')

/-- The Tether Treasury entry of the CEX table, exactly as written there. -/
def addrTether : String := "0xdAC17F958D2ee523a2206206994597C13D831ec7"

/-- The same address, all lower case. -/
def addrTetherLow : String := pyLower addrTether

/-- A base mock upstream on which everything fails or is empty. -/
def envNull : Env :=
  { explorer := fun _ _ => .raised "boom"
    ctorFails := fun _ => false
    symbol := fun _ => none
    decimals := fun _ => none
    getReceipt := fun _ => .error "no receipt"
    getBlock := fun _ _ => .ok ⟨0, []⟩
    latestHeight := fun _ => 0 }

/-- Explorer answers with an unverified body, `symbol()` raises: the
negative `Unknown Contract` outcome is reached without an exception. -/
def envResp : Env := { envNull with explorer := fun _ _ => .resp false "" "" }

/-- A receipt log carrying one qualifying Transfer event of token `0xtok`. -/
def log1 : Log :=
  ⟨"0xtok",
   [TRANSFER_SIG,
    "0x000000000000000000000000aaaaaaaaaaaaaaaaaaaaaaaaaaaaaaaaaaaaaaaa",
    "0x000000000000000000000000bbbbbbbbbbbbbbbbbbbbbbbbbbbbbbbbbbbbbbbb"], 5⟩

/-- Upstream where the receipt holds `log1` and the token's `symbol()`
probe raises while contract construction succeeds. -/
def envC3 : Env := { envNull with getReceipt := fun _ => .ok ⟨none, 1, 0, [log1]⟩ }

/-- Upstream where contract construction for `0xtok` itself raises. -/
def envCtor : Env := { envC3 with ctorFails := fun a => a == "0xtok" }

/-- A transaction and receipt used to exercise the record assembler. -/
def tx0 : Tx := ⟨"0xh1", aLow, none, 10 ^ 18, 0, 7, 0⟩

def rcpt0 : Receipt := ⟨none, 1, 0, []⟩

/-! ### Helper lemmas about the analyzer -/

theorem lookup_cons_self {β : Type} (a : String) (b : β) (l : List (String × β)) :
    List.lookup a ((a, b) :: l) = some b := by
  simp [List.lookup]

theorem getContractInfo_hit (env : Env) (chain : String) (cache : CCache) (a : String)
    (info : ContractInfo) (h : List.lookup a cache = some info) :
    getContractInfo env chain cache a = (info, cache, []) := by
  simp only [getContractInfo, h]

theorem getTokenInfo_hit (env : Env) (cache : TCache) (a : String)
    (info : TokenInfo) (h : List.lookup a cache = some info) :
    getTokenInfo env cache a = (info, cache, []) := by
  simp only [getTokenInfo, h]

theorem getContractInfo_miss_head (env : Env) (chain : String) (cache : CCache) (a : String)
    (h : List.lookup a cache = none) :
    (getContractInfo env chain cache a).2.2.head? = some (.explorerFetch a) := by
  simp only [getContractInfo, h]
  rcases env.explorer chain a with msg | ⟨s1, cn, src⟩
  · rfl
  · by_cases hv : (s1 && cn != "") = true
    · simp [hv]
    · by_cases hc : env.ctorFails a = true
      · simp [hv, hc]
      · rcases env.symbol a with _ | sym <;> simp [hv, hc]

theorem getContractInfo_raised (env : Env) (chain : String) (cache : CCache) (a msg : String)
    (h1 : env.explorer chain a = .raised msg) (h2 : List.lookup a cache = none) :
    getContractInfo env chain cache a
      = (⟨"Unknown", false, "unknown"⟩, cache, [.explorerFetch a]) := by
  simp only [getContractInfo, h2, h1]

theorem getContractInfo_second (env : Env) (chain : String) (cache : CCache) (a : String)
    (s1 : Bool) (nm src : String)
    (hresp : env.explorer chain a = .resp s1 nm src)
    (hctor : env.ctorFails a = false) :
    getContractInfo env chain ((getContractInfo env chain cache a).2.1) a
      = ((getContractInfo env chain cache a).1,
         (getContractInfo env chain cache a).2.1, ([] : List Ev)) := by
  rcases hl : List.lookup a cache with _ | info
  · by_cases hv : (s1 && nm != "") = true
    · have h1 : getContractInfo env chain cache a =
        (⟨nm, true, determineContractType nm src⟩,
         (a, ⟨nm, true, determineContractType nm src⟩) :: cache, [.explorerFetch a]) := by
        simp only [getContractInfo, hl, hresp, hv, if_true]
      rw [h1]
      exact getContractInfo_hit _ _ _ _ _ (lookup_cons_self ..)
    · rcases hs : env.symbol a with _ | sym
      · have h1 : getContractInfo env chain cache a =
          (⟨"Unknown Contract", false, "unknown"⟩,
           (a, ⟨"Unknown Contract", false, "unknown"⟩) :: cache,
           [.explorerFetch a, .symCall a]) := by
          simp only [getContractInfo, hl, hresp, hv, hctor, hs]
          simp
        rw [h1]
        exact getContractInfo_hit _ _ _ _ _ (lookup_cons_self ..)
      · have h1 : getContractInfo env chain cache a =
          (⟨sym, false, "token"⟩, (a, ⟨sym, false, "token"⟩) :: cache,
           [.explorerFetch a, .symCall a]) := by
          simp only [getContractInfo, hl, hresp, hv, hctor, hs]
          simp
        rw [h1]
        exact getContractInfo_hit _ _ _ _ _ (lookup_cons_self ..)
  · have h1 := getContractInfo_hit env chain cache a info hl
    rw [h1]
    exact getContractInfo_hit env chain cache a info hl

theorem isCexAddress_keyError (chain a : String) (tbl : List (String × String))
    (h1 : CEX_ADDRESSES.lookup chain = some tbl)
    (h2 : (tbl.map (fun p => pyLower p.1)).contains (pyLower a) = true)
    (h3 : tbl.lookup a = none) :
    isCexAddress chain a = .error a := by
  simp only [isCexAddress, h1, h2, h3, if_true]

theorem processDT_addr_congr (env : Env) (chain : String) (cc : CCache) (tc : TCache)
    (tx : Tx) (receipt : Receipt) (ts : Int) (a b : String)
    (h : pyLower a = pyLower b) :
    processDetailedTransaction env chain cc tc tx receipt a ts
      = processDetailedTransaction env chain cc tc tx receipt b ts := by
  simp only [processDetailedTransaction, h]

/-! ### C1 -/

/-- C1 counterexample: the claim is false on the code.  The Tether
Treasury address and its lower-cased variant differ only in letter
case, yet `is_cex_address` returns `(True, 'Tether Treasury')` for the
exact-case address and raises a `KeyError` for the variant, and a
contract-cache entry stored under the exact-case key is not hit when
queried under the variant (the lookup misses, the explorer is queried
again, and a different result is returned). -/
theorem c1_counterexample :
    pyLower addrTether = pyLower addrTetherLow
    ∧ addrTether ≠ addrTetherLow
    ∧ isCexAddress "ethereum" addrTether = .ok (true, "Tether Treasury")
    ∧ isCexAddress "ethereum" addrTetherLow = .error addrTetherLow
    ∧ (getContractInfo envNull "ethereum"
        [(addrTether, ⟨"Tether USD", true, "token"⟩)] addrTetherLow).2.2
        = [.explorerFetch addrTetherLow]
    ∧ (getContractInfo envNull "ethereum"
        [(addrTether, ⟨"Tether USD", true, "token"⟩)] addrTetherLow).1
        ≠ ⟨"Tether USD", true, "token"⟩ := by
  exact ⟨by decide, by decide, rfl, rfl, by decide, by decide⟩

/-- C1 amended: the direction flag is case-insensitive (the whole
assembled record is unchanged when the watched address is replaced by a
case variant), and the CEX membership test is case-insensitive; but the
contract and token caches are exact-string keyed (a stored entry is
returned only under the identical key, while any other key goes down
the network path), and an address matching a CEX table entry only up to
case raises a `KeyError` instead of resolving the exchange name. -/
theorem c1_amended :
    (∀ env chain (cc : CCache) (tc : TCache) tx receipt (ts : Int) a b,
      pyLower a = pyLower b →
      processDetailedTransaction env chain cc tc tx receipt a ts
        = processDetailedTransaction env chain cc tc tx receipt b ts)
    ∧ (∀ env chain (cache : CCache) a info, List.lookup a cache = some info →
      getContractInfo env chain cache a = (info, cache, []))
    ∧ (∀ env chain (cache : CCache) a, List.lookup a cache = none →
      (getContractInfo env chain cache a).2.2.head? = some (.explorerFetch a))
    ∧ (∀ env (cache : TCache) a info, List.lookup a cache = some info →
      getTokenInfo env cache a = (info, cache, []))
    ∧ (∀ chain a tbl, CEX_ADDRESSES.lookup chain = some tbl →
      (tbl.map (fun p => pyLower p.1)).contains (pyLower a) = true →
      tbl.lookup a = none →
      isCexAddress chain a = .error a) := by
  refine ⟨?_, ?_, ?_, ?_, ?_⟩
  · intro env chain cc tc tx receipt ts a b h
    exact processDT_addr_congr env chain cc tc tx receipt ts a b h
  · intro env chain cache a info h
    exact getContractInfo_hit env chain cache a info h
  · intro env chain cache a h
    exact getContractInfo_miss_head env chain cache a h
  · intro env cache a info h
    exact getTokenInfo_hit env cache a info h
  · intro chain a tbl h1 h2 h3
    exact isCexAddress_keyError chain a tbl h1 h2 h3

/-- C1 amended, witness at a concrete input. -/
theorem c1_amended_witness :
    pyLower "0xAB" = pyLower "0xab"
    ∧ processDetailedTransaction envNull "ethereum" [] [] tx0 rcpt0 "0xAB" 0
        = processDetailedTransaction envNull "ethereum" [] [] tx0 rcpt0 "0xab" 0 :=
  ⟨by decide, c1_amended.1 envNull "ethereum" [] [] tx0 rcpt0 0 "0xAB" "0xab" (by decide)⟩

/-! ### C2 -/

/-- C2 counterexample: when the explorer lookup raises, the `Unknown`
fallback outcome is not stored in the contract cache, and a second
`get_contract_info` call for the same address issues the explorer
request again — so the claim that every outcome (including those
produced when the lookup itself fails) is cached, making the second
call a pure cache hit, is false on the code. -/
theorem c2_counterexample :
    (getContractInfo envNull "ethereum" [] "0xabc").2.1 = []
    ∧ (getContractInfo envNull "ethereum"
        ((getContractInfo envNull "ethereum" [] "0xabc").2.1) "0xabc").2.2
        = [.explorerFetch "0xabc"] := by
  exact ⟨by decide, by decide⟩

/-- C2 amended: every outcome reached without an exception escaping the
explorer query or the fallback contract construction — including the
negative `Unknown Contract` outcome — is cached, and the second call
for the same address is then a pure cache hit with no network events;
but when the lookup itself raises, the `Unknown` fallback is not cached
and a second call issues the explorer request again. -/
theorem c2_amended :
    (∀ env chain (cache : CCache) a s1 nm src,
      env.explorer chain a = .resp s1 nm src →
      env.ctorFails a = false →
      getContractInfo env chain ((getContractInfo env chain cache a).2.1) a
        = ((getContractInfo env chain cache a).1,
           (getContractInfo env chain cache a).2.1, ([] : List Ev)))
    ∧ (∀ env chain (cache : CCache) a msg,
      env.explorer chain a = .raised msg → List.lookup a cache = none →
      (getContractInfo env chain cache a).2.1 = cache
      ∧ (getContractInfo env chain cache a).2.2 = [.explorerFetch a]) := by
  constructor
  · intro env chain cache a s1 nm src hresp hctor
    exact getContractInfo_second env chain cache a s1 nm src hresp hctor
  · intro env chain cache a msg hraised hl
    rw [getContractInfo_raised env chain cache a msg hraised hl]
    exact ⟨rfl, rfl⟩

/-- C2 amended, witness: with a parseable unverified explorer answer
and a raising `symbol()` probe, the negative outcome is cached and the
second call is a pure hit. -/
theorem c2_amended_witness :
    envResp.explorer "ethereum" "0xabc" = .resp false "" ""
    ∧ envResp.ctorFails "0xabc" = false
    ∧ getContractInfo envResp "ethereum"
        ((getContractInfo envResp "ethereum" [] "0xabc").2.1) "0xabc"
        = ((getContractInfo envResp "ethereum" [] "0xabc").1,
           (getContractInfo envResp "ethereum" [] "0xabc").2.1, ([] : List Ev)) :=
  ⟨rfl, rfl, c2_amended.1 envResp "ethereum" [] "0xabc" false "" "" rfl rfl⟩

/-! ### C3 -/

/-- The two low-20-byte topics used in mock Transfer logs. -/
def topicFrom : String :=
  "0x000000000000000000000000aaaaaaaaaaaaaaaaaaaaaaaaaaaaaaaaaaaaaaaa"

def topicTo : String :=
  "0x000000000000000000000000bbbbbbbbbbbbbbbbbbbbbbbbbbbbbbbbbbbbbbbb"

/-- C3 counterexample: the token-metadata lookup for `0xtok` raises (its
`symbol()` call fails), yet the decoded transfer's kind is `ERC721`,
not the claimed `unknown`. -/
theorem c3_counterexample :
    envC3.ctorFails "0xtok" = false
    ∧ envC3.symbol "0xtok" = none
    ∧ (getTokenTransfers envC3 [] "0xh").1
        = [⟨"0xtok", "UNKNOWN", 0, "0x" ++ strTakeRight topicFrom 40,
            "0x" ++ strTakeRight topicTo 40, (5 : ℚ), "ERC721"⟩]
    ∧ (getTokenTransfers envC3 [] "0xh").1.map Transfer.tokenType ≠ ["unknown"] := by
  exact ⟨rfl, rfl, by decide, by decide⟩

/-- C3 amended: a failing token-metadata lookup never aborts extraction
— the remaining logs are still decoded, in log order — and the decoded
transfer falls back to symbol `UNKNOWN` and decimals 0; the kind falls
back to `unknown` when the contract construction itself raises, but to
`ERC721` when only the `symbol()`/`decimals()` probes raise. -/
theorem c3_amended :
    ∀ env (tc : TCache) (l : Log) (rest : List Log) t1 t2,
      l.topics = [TRANSFER_SIG, t1, t2] →
      List.lookup l.address tc = none →
      ((env.ctorFails l.address = true →
        getTokenTransfersAux env (l :: rest) tc =
          (⟨l.address, "UNKNOWN", 0, "0x" ++ strTakeRight t1 40, "0x" ++ strTakeRight t2 40,
            (l.dataVal : ℚ), "unknown"⟩ :: (getTokenTransfersAux env rest tc).1,
           (getTokenTransfersAux env rest tc).2.1,
           (getTokenTransfersAux env rest tc).2.2))
      ∧ (env.ctorFails l.address = false → env.symbol l.address = none →
        getTokenTransfersAux env (l :: rest) tc =
          (⟨l.address, "UNKNOWN", 0, "0x" ++ strTakeRight t1 40, "0x" ++ strTakeRight t2 40,
            (l.dataVal : ℚ), "ERC721"⟩
            :: (getTokenTransfersAux env rest ((l.address, ⟨"UNKNOWN", 0, "ERC721"⟩) :: tc)).1,
           (getTokenTransfersAux env rest ((l.address, ⟨"UNKNOWN", 0, "ERC721"⟩) :: tc)).2.1,
           Ev.symCall l.address ::
             (getTokenTransfersAux env rest ((l.address, ⟨"UNKNOWN", 0, "ERC721"⟩) :: tc)).2.2))) := by
  intro env tc l rest t1 t2 htop hlk
  constructor
  · intro hctor
    have hti : getTokenInfo env tc l.address = (⟨"UNKNOWN", 0, "unknown"⟩, tc, []) := by
      simp only [getTokenInfo, hlk, hctor, if_true]
    simp only [getTokenTransfersAux, htop]
    simp [hti]
  · intro hctor hsym
    have hti : getTokenInfo env tc l.address
        = (⟨"UNKNOWN", 0, "ERC721"⟩, (l.address, ⟨"UNKNOWN", 0, "ERC721"⟩) :: tc,
           [.symCall l.address]) := by
      simp only [getTokenInfo, hlk, hctor, hsym]
      simp
    simp only [getTokenTransfersAux, htop]
    simp [hti]

/-- C3 amended, witness: contract construction for `0xtok` raises, the
transfer is decoded with the `unknown` fallback and extraction ends
normally. -/
theorem c3_amended_witness :
    log1.topics = [TRANSFER_SIG, topicFrom, topicTo]
    ∧ List.lookup log1.address ([] : TCache) = none
    ∧ envCtor.ctorFails log1.address = true
    ∧ getTokenTransfersAux envCtor [log1] [] =
        (⟨log1.address, "UNKNOWN", 0, "0x" ++ strTakeRight topicFrom 40,
          "0x" ++ strTakeRight topicTo 40, (log1.dataVal : ℚ), "unknown"⟩
           :: (getTokenTransfersAux envCtor [] ([] : TCache)).1,
         (getTokenTransfersAux envCtor [] ([] : TCache)).2.1,
         (getTokenTransfersAux envCtor [] ([] : TCache)).2.2) :=
  ⟨rfl, rfl, by decide,
   (c3_amended envCtor [] log1 [] topicFrom topicTo rfl rfl).1 (by decide)⟩

/-! ### C8 -/

/-- C8: category precedence of `classify_transaction` — any extracted
token transfer forces `token_transfer` (whatever the `to` contract is);
otherwise a truthy `to` that classifies into a `CONTRACT_TYPES`
category yields that category lower-cased; otherwise `unknown`. -/
theorem c8_category_precedence :
    ∀ env chain (cc : CCache) (tc : TCache) (hsh : String) (receipt : Receipt),
      ((getTokenTransfers env tc hsh).1 ≠ [] →
        (classifyTransaction env chain cc tc hsh receipt).1 = "token_transfer")
      ∧ ((getTokenTransfers env tc hsh).1 = [] → optTruthy receipt.toAddr = true →
        (classifyTransaction env chain cc tc hsh receipt).1 =
          (if (CONTRACT_TYPES.lookup
                (getContractInfo env chain cc (receipt.toAddr.getD "")).1.type).isSome
           then pyLower (getContractInfo env chain cc (receipt.toAddr.getD "")).1.type
           else "unknown"))
      ∧ ((getTokenTransfers env tc hsh).1 = [] → optTruthy receipt.toAddr = false →
        (classifyTransaction env chain cc tc hsh receipt).1 = "unknown") := by
  intro env chain cc tc hsh receipt
  refine ⟨?_, ?_, ?_⟩
  · intro hne
    have hp : 0 < (getTokenTransfers env tc hsh).1.length := List.length_pos.mpr hne
    simp only [classifyTransaction, if_pos hp]
  · intro hempty htr
    simp only [classifyTransaction, hempty, htr]
    simp only [List.length_nil, gt_iff_lt, lt_self_iff_false, if_false, if_true]
    split <;> rfl
  · intro hempty htr
    simp only [classifyTransaction, hempty, htr]
    simp

/-- The mock DEX router address and the receipt/environment for the C8
witness: the receipt carries one qualifying Transfer log while its `to`
address is a verified Uniswap contract. -/
def dexAddr : String := "0xrouter"

def log8 : Log := ⟨"0xtok8", [TRANSFER_SIG, topicFrom, topicTo], 7⟩

def rcptC8 : Receipt := ⟨some dexAddr, 1, 0, [log8]⟩

def envC8 : Env :=
  { envNull with
    getReceipt := fun _ => .ok rcptC8
    symbol := fun a => if a == "0xtok8" then some "TKN" else none
    decimals := fun a => if a == "0xtok8" then some 18 else none
    explorer := fun _ a =>
      if a == dexAddr then .resp true "UniswapV2Router02" "" else .raised "boom" }

/-- C8 witness: one decoded transfer forces `token_transfer` even
though the `to` address classifies as a DEX. -/
theorem c8_witness :
    (getTokenTransfers envC8 [] "0xh8").1 ≠ []
    ∧ (getContractInfo envC8 "ethereum" [] dexAddr).1.type = "DEX"
    ∧ (classifyTransaction envC8 "ethereum" [] [] "0xh8" rcptC8).1 = "token_transfer" :=
  ⟨by decide, by decide,
   (c8_category_precedence envC8 "ethereum" [] [] "0xh8" rcptC8).1 (by decide)⟩


/-- Two transactions from the watched address `aLow`, sitting in blocks
6 and 5 of the bounded-scan mock upstream. -/
def tx6 : Tx := ⟨"0xh6", aLow, none, 0, 0, 6, 0⟩

def tx5 : Tx := ⟨"0xh5", aLow, none, 0, 0, 5, 0⟩

def envC5 : Env :=
  { envNull with
    getBlock := fun _ n => .ok ⟨0, if n == 6 then [tx6] else if n == 5 then [tx5] else []⟩
    getReceipt := fun _ => .ok rcpt0 }

/-! ### C4 -/

/-- Upstream for the throttling scenario: fetching block 8 fails with a
rate-limit signal, every other block fetch succeeds with no matches. -/
def envC4 : Env :=
  { envNull with
    getBlock := fun _ n => if n == 8 then .error "Too Many Requests" else .ok ⟨0, []⟩ }

/-- C4: on a rate-limited block fetch the scanner doubles the delay
(capped at 60 time-units = 60000 ms), sleeps the fixed cooldown and
skips the failing height, continuing with the next lower block; in the
concrete four-fetch run where the 3rd fetch is throttled and the 4th
succeeds, the delay slept before the 4th fetch is double the delay
slept before each of the first three, with the cooldown in between. -/
theorem c4_rate_limit :
    (∀ env (chain address : String) (mt : Option Nat) (n : Nat) rest (delay : Nat)
        (cc : CCache) (tc : TCache) recs msg,
      env.getBlock chain n = .error msg →
      pyIn "Too Many Requests" msg = true →
      scanBlocks env chain address mt (n :: rest) delay cc tc recs =
        (let r := scanBlocks env chain address mt rest (min 60000 (delay * 2)) cc tc recs
         ⟨r.cc, r.tc, r.recs,
          .sleep delay :: .blockFetch chain n :: .cooldown :: r.evs, r.outcome⟩))
    ∧ (fetchDetailedTransactions envC4 ["ethereum"] [aLow] none (some 7) (some 10)).2.1 =
        [.sleep 200, .blockFetch "ethereum" 10, .sleep 200, .blockFetch "ethereum" 9,
         .sleep 200, .blockFetch "ethereum" 8, .cooldown,
         .sleep 400, .blockFetch "ethereum" 7]
    ∧ 400 = 2 * 200 := by
  refine ⟨?_, by decide, by norm_num⟩
  intro env chain address mt n rest delay cc tc recs msg herr hthr
  simp only [scanBlocks, herr, hthr, if_true]

/-- C4 witness at the concrete throttled height. -/
theorem c4_rate_limit_witness :
    envC4.getBlock "ethereum" 8 = .error "Too Many Requests"
    ∧ pyIn "Too Many Requests" "Too Many Requests" = true
    ∧ scanBlocks envC4 "ethereum" aLow none [8, 7] 200 [] [] [] =
        (let r := scanBlocks envC4 "ethereum" aLow none [7] (min 60000 (200 * 2)) [] [] []
         ⟨r.cc, r.tc, r.recs,
          .sleep 200 :: .blockFetch "ethereum" 8 :: .cooldown :: r.evs, r.outcome⟩) :=
  ⟨rfl, by decide,
   c4_rate_limit.1 envC4 "ethereum" aLow none 8 [7] 200 [] [] []
     "Too Many Requests" rfl (by decide)⟩

/-! ### C9 -/

theorem processTxs_mt_congr (env : Env) (chain address : String) (mt1 mt2 : Option Nat)
    (h : ∀ l, maxReached mt1 l = maxReached mt2 l) (ts : Int) :
    ∀ txs (cc : CCache) (tc : TCache) recs,
      processTxs env chain address mt1 ts txs cc tc recs
        = processTxs env chain address mt2 ts txs cc tc recs := by
  intro txs
  induction txs with
  | nil => intro cc tc recs; rfl
  | cons tx rest ih =>
    intro cc tc recs
    by_cases hm : matchesAddress tx address = true
    · rcases hr : env.getReceipt tx.hash with msg | receipt
      · simp only [processTxs, hm, if_true, hr]
      · simp only [processTxs, hm, if_true, hr]
        generalize processDetailedTransaction env chain cc tc tx receipt address ts = p
        obtain ⟨res, cc', tc', pevs⟩ := p
        cases res with
        | error k => rfl
        | ok rec => simp only [h, ih]
    · simp only [processTxs, hm, if_false, Bool.false_eq_true]
      exact ih cc tc recs

theorem scanBlocks_mt_congr (env : Env) (chain address : String) (mt1 mt2 : Option Nat)
    (h : ∀ l, maxReached mt1 l = maxReached mt2 l) :
    ∀ heights (delay : Nat) (cc : CCache) (tc : TCache) recs,
      scanBlocks env chain address mt1 heights delay cc tc recs
        = scanBlocks env chain address mt2 heights delay cc tc recs := by
  intro heights
  induction heights with
  | nil => intro delay cc tc recs; rfl
  | cons n rest ih =>
    intro delay cc tc recs
    rcases hb : env.getBlock chain n with msg | block
    · simp only [scanBlocks, hb]
      split <;> rw [ih]
    · simp only [scanBlocks, hb]
      rw [processTxs_mt_congr env chain address mt1 mt2 h block.timestamp
            block.transactions cc tc recs]
      rcases ho : (processTxs env chain address mt2 block.timestamp
          block.transactions cc tc recs).outcome with _ | msg | _
      · simp only [ho]
        rw [ih]
      · simp only [ho]
        split <;> rw [ih]
      · simp only [ho]

theorem scanAddresses_mt_congr (env : Env) (chain : String) (mt1 mt2 : Option Nat)
    (h : ∀ l, maxReached mt1 l = maxReached mt2 l) (sb eb : Nat) :
    ∀ addrs (cc : CCache) (tc : TCache) recs,
      scanAddresses env chain mt1 sb eb addrs cc tc recs
        = scanAddresses env chain mt2 sb eb addrs cc tc recs := by
  intro addrs
  induction addrs with
  | nil => intro cc tc recs; rfl
  | cons a rest ih =>
    intro cc tc recs
    by_cases ha : isAddress a = true
    · simp only [scanAddresses, ha, if_true]
      rw [scanBlocks_mt_congr env chain a mt1 mt2 h (blockRange eb sb) 200 cc tc recs]
      rcases ho : (scanBlocks env chain a mt2 (blockRange eb sb) 200 cc tc recs).outcome
        with _ | msg | _
      · simp only [ho]
        rw [ih]
      · simp only [ho]
        rw [ih]
      · simp only [ho]
    · simp only [scanAddresses, ha, if_false, Bool.false_eq_true]
      exact ih cc tc recs

theorem fetchChains_mt_congr (env : Env) (addrs : List String) (mt1 mt2 : Option Nat)
    (h : ∀ l, maxReached mt1 l = maxReached mt2 l) :
    ∀ chains (sb eb : Option Nat) recs,
      fetchChains env addrs mt1 chains sb eb recs
        = fetchChains env addrs mt2 chains sb eb recs := by
  intro chains
  induction chains with
  | nil => intro sb eb recs; rfl
  | cons c rest ih =>
    intro sb eb recs
    simp only [fetchChains]
    rw [scanAddresses_mt_congr env c mt1 mt2 h _ _ addrs [] [] recs]
    rcases ho : (scanAddresses env c mt2
        (match sb with
         | some s => s
         | none => (match eb with | some e => e | none => env.latestHeight c) - 100000)
        (match eb with | some e => e | none => env.latestHeight c)
        addrs [] [] recs).outcome with _ | msg | _
    · simp only [ho]
      rw [ih]
    · simp only [ho]
      rw [ih]
    · simp only [ho]

/-- C9: with `max_transactions = 0` the truthiness guard never fires,
so the scan behaves exactly as with no bound at all — and in a concrete
run with two matching transactions it returns both instead of an empty
result. -/
theorem c9_zero_bound :
    (∀ env (chains addrs : List String) (sb eb : Option Nat),
      fetchDetailedTransactions env chains addrs (some 0) sb eb
        = fetchDetailedTransactions env chains addrs none sb eb)
    ∧ (fetchDetailedTransactions envC5 ["ethereum"] [aLow] (some 0) (some 5) (some 6)).1.length
        = 2 := by
  constructor
  · intro env chains addrs sb eb
    unfold fetchDetailedTransactions
    exact fetchChains_mt_congr env addrs (some 0) none (fun l => rfl) chains sb eb []
  · decide

/-! ### Trace classification: events emitted inside block processing -/

/-- Events that are neither a block fetch nor an adaptive-delay sleep:
everything emitted by receipt processing and the analyzer. -/
def innerEv : Ev → Bool
  | .blockFetch _ _ => false
  | .sleep _ => false
  | _ => true

theorem heightsOf_inner {evs : List Ev} (h : evs.all innerEv = true) :
    heightsOf evs = [] := by
  rw [heightsOf, List.filterMap_eq_nil_iff]
  intro e he
  have := List.all_eq_true.mp h e he
  cases e <;> simp_all [innerEv]

theorem chainHeightsOf_inner (c : String) {evs : List Ev} (h : evs.all innerEv = true) :
    chainHeightsOf c evs = [] := by
  rw [chainHeightsOf, List.filterMap_eq_nil_iff]
  intro e he
  have := List.all_eq_true.mp h e he
  cases e <;> simp_all [innerEv]

theorem delaysOf_inner {evs : List Ev} (h : evs.all innerEv = true) :
    delaysOf evs = [] := by
  rw [delaysOf, List.filterMap_eq_nil_iff]
  intro e he
  have := List.all_eq_true.mp h e he
  cases e <;> simp_all [innerEv]

theorem getContractInfo_inner (env : Env) (chain : String) (cache : CCache) (a : String) :
    (getContractInfo env chain cache a).2.2.all innerEv = true := by
  rcases hl : List.lookup a cache with _ | info
  · rcases he : env.explorer chain a with msg | ⟨s1, cn, src⟩ <;>
      simp only [getContractInfo, hl, he]
    · rfl
    · split
      · rfl
      · split
        · rfl
        · rcases hs : env.symbol a with _ | sym <;> simp [hs, innerEv]
  · simp [getContractInfo, hl]

theorem getTokenInfo_inner (env : Env) (cache : TCache) (a : String) :
    (getTokenInfo env cache a).2.2.all innerEv = true := by
  rcases hl : List.lookup a cache with _ | info
  · simp only [getTokenInfo, hl]
    split
    · rfl
    · rcases hs : env.symbol a with _ | sym <;> simp only [hs]
      · rfl
      · rcases hd : env.decimals a with _ | d <;> simp only [hd] <;> rfl
  · simp [getTokenInfo, hl]

theorem getTokenTransfersAux_inner (env : Env) :
    ∀ (logs : List Log) (cache : TCache),
      (getTokenTransfersAux env logs cache).2.2.all innerEv = true := by
  intro logs
  induction logs with
  | nil => intro cache; rfl
  | cons log rest ih =>
    intro cache
    simp only [getTokenTransfersAux]
    split
    · split
      · simp only [List.all_append, Bool.and_eq_true]
        exact ⟨getTokenInfo_inner env cache log.address, ih _⟩
      · exact ih cache
    · exact ih cache

theorem getTokenTransfers_inner (env : Env) (cache : TCache) (h : String) :
    (getTokenTransfers env cache h).2.2.all innerEv = true := by
  rcases hr : env.getReceipt h with msg | receipt <;> simp only [getTokenTransfers, hr]
  · rfl
  · simp only [List.all_cons, Bool.and_eq_true]
    exact ⟨rfl, getTokenTransfersAux_inner env receipt.logs cache⟩

theorem classifyTransaction_inner (env : Env) (chain : String) (cc : CCache) (tc : TCache)
    (h : String) (receipt : Receipt) :
    (classifyTransaction env chain cc tc h receipt).2.2.2.all innerEv = true := by
  simp only [classifyTransaction]
  split
  · exact getTokenTransfers_inner env tc h
  · split
    · split <;>
      · simp only [List.all_append, Bool.and_eq_true]
        exact ⟨getTokenTransfers_inner env tc h, getContractInfo_inner env chain cc _⟩
    · exact getTokenTransfers_inner env tc h

theorem processDT_inner (env : Env) (chain : String) (cc : CCache) (tc : TCache)
    (tx : Tx) (receipt : Receipt) (address : String) (ts : Int) :
    (processDetailedTransaction env chain cc tc tx receipt address ts).2.2.2.all innerEv
      = true := by
  simp only [processDetailedTransaction]
  split
  · simp only [List.all_append, Bool.and_eq_true]
    exact ⟨getTokenTransfers_inner env tc tx.hash, classifyTransaction_inner env chain cc _ _ _⟩
  · split
    · simp only [List.all_append, Bool.and_eq_true]
      exact ⟨getTokenTransfers_inner env tc tx.hash, classifyTransaction_inner env chain cc _ _ _⟩
    · split
      · simp only [List.all_append, Bool.and_eq_true]
        refine ⟨⟨getTokenTransfers_inner env tc tx.hash,
          classifyTransaction_inner env chain cc _ _ _⟩, ?_⟩
        exact getContractInfo_inner env chain _ _
      · simp only [List.all_append, Bool.and_eq_true]
        exact ⟨getTokenTransfers_inner env tc tx.hash,
          classifyTransaction_inner env chain cc _ _ _⟩

theorem processTxs_inner (env : Env) (chain address : String) (mt : Option Nat) (ts : Int) :
    ∀ txs (cc : CCache) (tc : TCache) recs,
      (processTxs env chain address mt ts txs cc tc recs).evs.all innerEv = true := by
  intro txs
  induction txs with
  | nil => intro cc tc recs; rfl
  | cons tx rest ih =>
    intro cc tc recs
    by_cases hm : matchesAddress tx address = true
    · rcases hr : env.getReceipt tx.hash with msg | receipt <;>
        simp only [processTxs, hm, if_true, hr]
      · rfl
      · have hall := processDT_inner env chain cc tc tx receipt address ts
        generalize hp : processDetailedTransaction env chain cc tc tx receipt address ts = p
          at hall
        obtain ⟨res, cc', tc', pevs⟩ := p
        cases res with
        | error k =>
          dsimp only
          simp [innerEv, hall]
        | ok rec =>
          dsimp only
          split <;> simp [innerEv, hall, ih]
    · simp only [processTxs, hm, if_false, Bool.false_eq_true]
      exact ih cc tc recs

/-! ### Trace extraction over the scanner -/

theorem heightsOf_nil : heightsOf [] = [] := rfl

theorem heightsOf_cons_sleep (d : Nat) (l : List Ev) :
    heightsOf (.sleep d :: l) = heightsOf l := rfl

theorem heightsOf_cons_bf (c : String) (n : Nat) (l : List Ev) :
    heightsOf (.blockFetch c n :: l) = n :: heightsOf l := rfl

theorem heightsOf_cons_cooldown (l : List Ev) :
    heightsOf (.cooldown :: l) = heightsOf l := rfl

theorem heightsOf_append (l1 l2 : List Ev) :
    heightsOf (l1 ++ l2) = heightsOf l1 ++ heightsOf l2 :=
  List.filterMap_append ..

theorem chainHeightsOf_nil (c : String) : chainHeightsOf c [] = [] := rfl

theorem chainHeightsOf_cons_sleep (c : String) (d : Nat) (l : List Ev) :
    chainHeightsOf c (.sleep d :: l) = chainHeightsOf c l := rfl

theorem chainHeightsOf_cons_cooldown (c : String) (l : List Ev) :
    chainHeightsOf c (.cooldown :: l) = chainHeightsOf c l := rfl

theorem chainHeightsOf_cons_bf (c c0 : String) (n : Nat) (l : List Ev) :
    chainHeightsOf c (.blockFetch c0 n :: l)
      = if (c0 == c) = true then n :: chainHeightsOf c l else chainHeightsOf c l := by
  by_cases h : c0 = c <;> simp [chainHeightsOf, List.filterMap_cons, h]

theorem chainHeightsOf_append (c : String) (l1 l2 : List Ev) :
    chainHeightsOf c (l1 ++ l2) = chainHeightsOf c l1 ++ chainHeightsOf c l2 :=
  List.filterMap_append ..

theorem delaysOf_nil : delaysOf [] = [] := rfl

theorem delaysOf_cons_sleep (d : Nat) (l : List Ev) :
    delaysOf (.sleep d :: l) = d :: delaysOf l := rfl

theorem delaysOf_cons_bf (c : String) (n : Nat) (l : List Ev) :
    delaysOf (.blockFetch c n :: l) = delaysOf l := rfl

theorem delaysOf_cons_cooldown (l : List Ev) :
    delaysOf (.cooldown :: l) = delaysOf l := rfl

theorem delaysOf_append (l1 l2 : List Ev) :
    delaysOf (l1 ++ l2) = delaysOf l1 ++ delaysOf l2 :=
  List.filterMap_append ..

theorem processTxs_none_not_stopped (env : Env) (chain address : String) (ts : Int) :
    ∀ txs (cc : CCache) (tc : TCache) recs,
      (processTxs env chain address none ts txs cc tc recs).outcome ≠ .stopped := by
  intro txs
  induction txs with
  | nil => intro cc tc recs; simp [processTxs]
  | cons tx rest ih =>
    intro cc tc recs
    by_cases hm : matchesAddress tx address = true
    · rcases hr : env.getReceipt tx.hash with msg | receipt <;>
        simp only [processTxs, hm, if_true, hr]
      · simp
      · generalize processDetailedTransaction env chain cc tc tx receipt address ts = p
        obtain ⟨res, cc', tc', pevs⟩ := p
        cases res with
        | error k => simp
        | ok rec =>
          dsimp only
          rw [if_neg (by simp [maxReached])]
          exact ih _ _ _
    · simp only [processTxs, hm, if_false, Bool.false_eq_true]
      exact ih cc tc recs

theorem scanBlocks_none_not_stopped (env : Env) (chain address : String) :
    ∀ heights (delay : Nat) (cc : CCache) (tc : TCache) recs,
      (scanBlocks env chain address none heights delay cc tc recs).outcome ≠ .stopped := by
  intro heights
  induction heights with
  | nil => intro delay cc tc recs; simp [scanBlocks]
  | cons n rest ih =>
    intro delay cc tc recs
    rcases hb : env.getBlock chain n with msg | block
    · simp only [scanBlocks, hb]
      split <;> exact ih _ _ _ _
    · simp only [scanBlocks, hb]
      rcases ho : (processTxs env chain address none block.timestamp
          block.transactions cc tc recs).outcome with _ | msg | _
      · simp only [ho]
        exact ih _ _ _ _
      · simp only [ho]
        split <;> exact ih _ _ _ _
      · exact absurd ho (processTxs_none_not_stopped env chain address block.timestamp
          block.transactions cc tc recs)

theorem scanBlocks_none_heightsOf (env : Env) (chain address : String) :
    ∀ heights (delay : Nat) (cc : CCache) (tc : TCache) recs,
      heightsOf (scanBlocks env chain address none heights delay cc tc recs).evs
        = heights := by
  intro heights
  induction heights with
  | nil => intro delay cc tc recs; rfl
  | cons n rest ih =>
    intro delay cc tc recs
    rcases hb : env.getBlock chain n with msg | block
    · simp only [scanBlocks, hb]
      split <;>
        simp [heightsOf_cons_sleep, heightsOf_cons_bf, heightsOf_cons_cooldown, ih]
    · simp only [scanBlocks, hb]
      have hin := heightsOf_inner (processTxs_inner env chain address none
        block.timestamp block.transactions cc tc recs)
      rcases ho : (processTxs env chain address none block.timestamp
          block.transactions cc tc recs).outcome with _ | msg | _
      · simp only [ho]
        simp [heightsOf_cons_sleep, heightsOf_cons_bf, heightsOf_append,
          heightsOf_cons_cooldown, hin, ih]
      · simp only [ho]
        split <;>
          simp [heightsOf_cons_sleep, heightsOf_cons_bf, heightsOf_append,
            heightsOf_cons_cooldown, hin, ih]
      · exact absurd ho (processTxs_none_not_stopped env chain address block.timestamp
          block.transactions cc tc recs)

theorem scanBlocks_none_chainHeights (env : Env) (chain address c' : String) :
    ∀ heights (delay : Nat) (cc : CCache) (tc : TCache) recs,
      chainHeightsOf c' (scanBlocks env chain address none heights delay cc tc recs).evs
        = if (chain == c') = true then heights else [] := by
  intro heights
  induction heights with
  | nil =>
    intro delay cc tc recs
    split <;> rfl
  | cons n rest ih =>
    intro delay cc tc recs
    rcases hb : env.getBlock chain n with msg | block
    · simp only [scanBlocks, hb]
      split <;>
      · by_cases hc : (chain == c') = true <;>
          simp [chainHeightsOf_cons_sleep, chainHeightsOf_cons_bf,
            chainHeightsOf_cons_cooldown, hc, ih]
    · simp only [scanBlocks, hb]
      have hin := chainHeightsOf_inner c' (processTxs_inner env chain address none
        block.timestamp block.transactions cc tc recs)
      rcases ho : (processTxs env chain address none block.timestamp
          block.transactions cc tc recs).outcome with _ | msg | _
      · simp only [ho]
        by_cases hc : (chain == c') = true <;>
          simp [chainHeightsOf_cons_sleep, chainHeightsOf_cons_bf, chainHeightsOf_append,
            chainHeightsOf_cons_cooldown, hc, hin, ih]
      · simp only [ho]
        split <;>
        · by_cases hc : (chain == c') = true <;>
            simp [chainHeightsOf_cons_sleep, chainHeightsOf_cons_bf, chainHeightsOf_append,
              chainHeightsOf_cons_cooldown, hc, hin, ih]
      · exact absurd ho (processTxs_none_not_stopped env chain address block.timestamp
          block.transactions cc tc recs)

/-! ### The descending block range -/

theorem blockRange_head (eb sb : Nat) (h : sb ≤ eb) :
    (blockRange eb sb).head? = some eb := by
  rw [blockRange, List.head?_reverse, List.getLast?_range']
  rw [if_neg (by omega)]
  congr 1
  omega

theorem blockRange_getLast (eb sb : Nat) (h : sb ≤ eb) :
    (blockRange eb sb).getLast? = some sb := by
  rw [blockRange, List.getLast?_reverse, List.head?_range']
  rw [if_neg (by omega)]

theorem blockRange_pairwise (eb sb : Nat) : (blockRange eb sb).Pairwise (· > ·) := by
  rw [blockRange, List.pairwise_reverse]
  exact List.pairwise_lt_range' sb (eb + 1 - sb)

theorem blockRange_chain (eb sb : Nat) : List.Chain' (· > ·) (blockRange eb sb) :=
  (blockRange_pairwise eb sb).chain'

theorem blockRange_nodup (eb sb : Nat) : (blockRange eb sb).Nodup := by
  rw [blockRange, List.nodup_reverse]
  exact List.nodup_range' sb (eb + 1 - sb)

theorem blockRange_cons (eb sb : Nat) (h : sb ≤ eb) :
    ∃ hs, blockRange eb sb = eb :: hs := by
  rcases hr : blockRange eb sb with _ | ⟨x, hs⟩
  · have := blockRange_head eb sb h
    rw [hr] at this
    simp at this
  · have := blockRange_head eb sb h
    rw [hr] at this
    simp at this
    exact ⟨hs, by rw [this]⟩

/-! ### C6 -/

/-- C6 counterexample: with two configured wallet addresses the run over
the range [5, 6] fetches the heights 6, 5, 6, 5 — height 6 is fetched
twice during the run and the visit order is not strictly descending. -/
theorem c6_counterexample :
    heightsOf (fetchDetailedTransactions envNull ["ethereum"] [aLow, bLow] none
        (some 5) (some 6)).2.1 = [6, 5, 6, 5]
    ∧ ((fetchDetailedTransactions envNull ["ethereum"] [aLow, bLow] none
        (some 5) (some 6)).2.1).count (Ev.blockFetch "ethereum" 6) = 2
    ∧ ¬ List.Pairwise (· > ·) ([6, 5, 6, 5] : List Nat) := by
  refine ⟨by decide, by decide, ?_⟩
  intro h
  rcases List.pairwise_cons.mp h with ⟨-, h'⟩
  rcases List.pairwise_cons.mp h' with ⟨h5, -⟩
  have := h5 6 (by simp)
  omega

/-- C6 amended: within one (chain, address) block scan the visited
heights are exactly the descending range — block `end` first, block
`start` last, strictly descending, each height at most once; the run as
a whole replays this range once per watched address (and per chain). -/
theorem c6_descending_scan :
    ∀ env (chain a : String) (sb eb delay : Nat) (cc : CCache) (tc : TCache) recs,
      sb ≤ eb →
      heightsOf (scanBlocks env chain a none (blockRange eb sb) delay cc tc recs).evs
        = blockRange eb sb
      ∧ (blockRange eb sb).head? = some eb
      ∧ (blockRange eb sb).getLast? = some sb
      ∧ List.Chain' (· > ·) (blockRange eb sb)
      ∧ (blockRange eb sb).Nodup := by
  intro env chain a sb eb delay cc tc recs h
  exact ⟨scanBlocks_none_heightsOf env chain a (blockRange eb sb) delay cc tc recs,
    blockRange_head eb sb h, blockRange_getLast eb sb h,
    blockRange_chain eb sb, blockRange_nodup eb sb⟩

/-- C6 amended, witness over the concrete range [5, 6]. -/
theorem c6_descending_scan_witness :
    5 ≤ 6
    ∧ (heightsOf (scanBlocks envNull "ethereum" aLow none (blockRange 6 5) 200 [] [] []).evs
        = blockRange 6 5
      ∧ (blockRange 6 5).head? = some 6
      ∧ (blockRange 6 5).getLast? = some 5
      ∧ List.Chain' (· > ·) (blockRange 6 5)
      ∧ (blockRange 6 5).Nodup) :=
  ⟨by decide, c6_descending_scan envNull "ethereum" aLow 5 6 200 [] [] [] (by decide)⟩

/-! ### C7 -/

theorem chain'_le_shrink {d d' : Nat} {L : List Nat} (hdd : d ≤ d')
    (h : List.Chain' (· ≤ ·) (d' :: L)) : List.Chain' (· ≤ ·) (d :: L) := by
  rcases L with _ | ⟨x, L⟩
  · simp
  · rw [List.chain'_cons] at h ⊢
    exact ⟨le_trans hdd h.1, h.2⟩

/-- The adaptive delays slept by one block scan, prefixed with the
starting delay, are non-decreasing: the delay only ever moves to
`min 60000 (2·d) ≥ d`. -/
theorem scanBlocks_delays (env : Env) (chain address : String) (mt : Option Nat) :
    ∀ heights (delay : Nat) (cc : CCache) (tc : TCache) recs, delay ≤ 60000 →
      List.Chain' (· ≤ ·)
        (delay :: delaysOf (scanBlocks env chain address mt heights delay cc tc recs).evs) := by
  intro heights
  induction heights with
  | nil => intro delay cc tc recs hd; simp [scanBlocks, delaysOf]
  | cons n rest ih =>
    intro delay cc tc recs hd
    have hmono : delay ≤ min 60000 (delay * 2) := by omega
    have hcap : min 60000 (delay * 2) ≤ 60000 := by omega
    rcases hb : env.getBlock chain n with msg | block
    · simp only [scanBlocks, hb]
      split
      · simp only [delaysOf_cons_sleep, delaysOf_cons_bf, delaysOf_cons_cooldown]
        exact List.chain'_cons.mpr ⟨le_refl delay,
          chain'_le_shrink hmono (ih _ _ _ _ hcap)⟩
      · simp only [delaysOf_cons_sleep, delaysOf_cons_bf]
        exact List.chain'_cons.mpr ⟨le_refl delay, ih _ _ _ _ hd⟩
    · simp only [scanBlocks, hb]
      have hin := delaysOf_inner (processTxs_inner env chain address mt
        block.timestamp block.transactions cc tc recs)
      rcases ho : (processTxs env chain address mt block.timestamp
          block.transactions cc tc recs).outcome with _ | msg | _
      · simp only [ho]
        simp only [delaysOf_cons_sleep, delaysOf_cons_bf, delaysOf_append, hin,
          List.nil_append]
        exact List.chain'_cons.mpr ⟨le_refl delay, ih _ _ _ _ hd⟩
      · simp only [ho]
        split
        · simp only [delaysOf_cons_sleep, delaysOf_cons_bf, delaysOf_append, hin,
            delaysOf_cons_cooldown, List.nil_append]
          exact List.chain'_cons.mpr ⟨le_refl delay,
            chain'_le_shrink hmono (ih _ _ _ _ hcap)⟩
        · simp only [delaysOf_cons_sleep, delaysOf_cons_bf, delaysOf_append, hin,
            List.nil_append]
          exact List.chain'_cons.mpr ⟨le_refl delay, ih _ _ _ _ hd⟩
      · simp only [ho]
        simp only [delaysOf_cons_sleep, delaysOf_cons_bf, delaysOf_append, hin,
          List.nil_append]
        simp [List.chain'_cons, delaysOf_inner]

theorem scanBlocks_delaysOf_cons (env : Env) (chain address : String) (mt : Option Nat)
    (n : Nat) (hs : List Nat) (delay : Nat) (cc : CCache) (tc : TCache) (recs : List Record) :
    ∃ l, delaysOf (scanBlocks env chain address mt (n :: hs) delay cc tc recs).evs
      = delay :: l := by
  rcases hb : env.getBlock chain n with msg | block
  · simp only [scanBlocks, hb]
    split <;> exact ⟨_, rfl⟩
  · simp only [scanBlocks, hb]
    rcases ho : (processTxs env chain address mt block.timestamp
        block.transactions cc tc recs).outcome with _ | msg | _ <;> simp only [ho]
    · exact ⟨_, rfl⟩
    · split <;> exact ⟨_, rfl⟩
    · exact ⟨_, rfl⟩

theorem scanAddresses_delays_head (env : Env) (chain : String) (mt : Option Nat)
    (sb eb : Nat) (a : String) (rest : List String) (cc : CCache) (tc : TCache)
    (recs : List Record) (ha : isAddress a = true) (hle : sb ≤ eb) :
    (delaysOf (scanAddresses env chain mt sb eb (a :: rest) cc tc recs).evs).head?
      = some 200 := by
  obtain ⟨hs, hbr⟩ := blockRange_cons eb sb hle
  simp only [scanAddresses, ha, if_true, hbr]
  obtain ⟨l, hl⟩ := scanBlocks_delaysOf_cons env chain a mt eb hs 200 cc tc recs
  rcases ho : (scanBlocks env chain a mt (eb :: hs) 200 cc tc recs).outcome
    with _ | msg | _ <;> simp only [ho]
  · simp [delaysOf_append, hl]
  · simp [delaysOf_append, hl]
  · simp [hl]

/-- Upstream for the delay-reset counterexample: block 6 always fails
with a rate-limit signal, block 5 succeeds with no matches. -/
def envC7 : Env :=
  { envNull with
    getBlock := fun _ n => if n == 6 then .error "Too Many Requests" else .ok ⟨0, []⟩ }

/-- C7 counterexample: with two configured wallet addresses, the
throttling during the first address's scan raises the delay to 400 ms,
but the local `request_delay = 0.2` re-initialisation at the top of the
per-address loop silently resets it to 200 ms partway through the run —
the slept delays 200, 400, 200, 400 are not non-decreasing and the drop
is not a success-driven decay (the code has none). -/
theorem c7_counterexample :
    delaysOf (fetchDetailedTransactions envC7 ["ethereum"] [aLow, bLow] none
        (some 5) (some 6)).2.1 = [200, 400, 200, 400]
    ∧ ¬ List.Chain' (· ≤ ·) ([200, 400, 200, 400] : List Nat) := by
  refine ⟨by decide, ?_⟩
  intro h
  rcases List.chain'_cons.mp h with ⟨-, h⟩
  rcases List.chain'_cons.mp h with ⟨h2, -⟩
  omega

/-- C7 amended: within a single (chain, address) block scan the
adaptive delay is monotonically non-decreasing (it is never lowered at
all — there is no success-driven decay); but each watched address's
scan starts over from the base delay of 200 ms, so the delay is reset
partway through the run whenever several addresses are configured. -/
theorem c7_delay_monotone :
    (∀ env (chain a : String) (mt : Option Nat) heights (d : Nat)
        (cc : CCache) (tc : TCache) recs, d ≤ 60000 →
      List.Chain' (· ≤ ·)
        (delaysOf (scanBlocks env chain a mt heights d cc tc recs).evs))
    ∧ (∀ env (chain : String) (mt : Option Nat) (sb eb : Nat) a rest
        (cc : CCache) (tc : TCache) recs,
      isAddress a = true → sb ≤ eb →
      (delaysOf (scanAddresses env chain mt sb eb (a :: rest) cc tc recs).evs).head?
        = some 200) := by
  constructor
  · intro env chain a mt heights d cc tc recs hd
    exact (List.chain'_cons'.mp (scanBlocks_delays env chain a mt heights d cc tc recs hd)).2
  · intro env chain mt sb eb a rest cc tc recs ha hle
    exact scanAddresses_delays_head env chain mt sb eb a rest cc tc recs ha hle

/-- C7 amended, witness on the throttled mock chain. -/
theorem c7_delay_monotone_witness :
    (200 ≤ 60000
      ∧ List.Chain' (· ≤ ·)
          (delaysOf (scanBlocks envC7 "ethereum" aLow none [6, 5] 200 [] [] []).evs))
    ∧ (isAddress aLow = true ∧ 5 ≤ 6
      ∧ (delaysOf (scanAddresses envC7 "ethereum" none 5 6 [aLow] [] [] []).evs).head?
          = some 200) :=
  ⟨⟨by decide,
    c7_delay_monotone.1 envC7 "ethereum" aLow none [6, 5] 200 [] [] [] (by decide)⟩,
   ⟨by decide, by decide,
    c7_delay_monotone.2 envC7 "ethereum" none 5 6 aLow [] [] [] [] (by decide) (by decide)⟩⟩

/-! ### C10 -/

theorem scanAddresses_none_not_stopped (env : Env) (chain : String) (sb eb : Nat) :
    ∀ addrs (cc : CCache) (tc : TCache) recs,
      (scanAddresses env chain none sb eb addrs cc tc recs).outcome ≠ .stopped := by
  intro addrs
  induction addrs with
  | nil => intro cc tc recs; simp [scanAddresses]
  | cons a rest ih =>
    intro cc tc recs
    by_cases ha : isAddress a = true
    · simp only [scanAddresses, ha, if_true]
      rcases ho : (scanBlocks env chain a none (blockRange eb sb) 200 cc tc recs).outcome
        with _ | msg | _
      · simp only [ho]
        exact ih _ _ _
      · simp only [ho]
        exact ih _ _ _
      · exact absurd ho (scanBlocks_none_not_stopped env chain a _ _ _ _ _)
    · simp only [scanAddresses, ha, if_false, Bool.false_eq_true]
      exact ih _ _ _

theorem scanAddresses_single_chainHeights (env : Env) (chain c' : String) (sb eb : Nat)
    (a : String) (ha : isAddress a = true) (cc : CCache) (tc : TCache) (recs : List Record) :
    chainHeightsOf c' (scanAddresses env chain none sb eb [a] cc tc recs).evs
      = if (chain == c') = true then blockRange eb sb else [] := by
  simp only [scanAddresses, ha, if_true]
  rcases ho : (scanBlocks env chain a none (blockRange eb sb) 200 cc tc recs).outcome
    with _ | msg | _
  · simp only [ho]
    simp [scanAddresses, chainHeightsOf_append, scanBlocks_none_chainHeights,
      chainHeightsOf_nil]
  · simp only [ho]
    simp [scanAddresses, chainHeightsOf_append, scanBlocks_none_chainHeights,
      chainHeightsOf_nil]
  · exact absurd ho (scanBlocks_none_not_stopped env chain a _ _ _ _ _)

theorem fetchDT_two_chains_trace (env : Env) (c1 c2 a : String) :
    (fetchDetailedTransactions env [c1, c2] [a] none none none).2.1
      = (scanAddresses env c1 none (env.latestHeight c1 - 100000)
          (env.latestHeight c1) [a] [] [] []).evs
        ++ ((scanAddresses env c2 none (env.latestHeight c1 - 100000)
              (env.latestHeight c1) [a] [] []
              (scanAddresses env c1 none (env.latestHeight c1 - 100000)
                (env.latestHeight c1) [a] [] [] []).recs).evs
            ++ []) := by
  simp only [fetchDetailedTransactions, fetchChains]
  rcases ho1 : (scanAddresses env c1 none (env.latestHeight c1 - 100000)
      (env.latestHeight c1) [a] [] [] []).outcome with _ | msg | _
  rotate_right
  · exact absurd ho1 (scanAddresses_none_not_stopped env c1 _ _ [a] [] [] [])
  all_goals (
    simp only [ho1]
    rcases ho2 : (scanAddresses env c2 none (env.latestHeight c1 - 100000)
        (env.latestHeight c1) [a] [] []
        (scanAddresses env c1 none (env.latestHeight c1 - 100000)
          (env.latestHeight c1) [a] [] [] []).recs).outcome with _ | msg2 | _
    rotate_right
    · exact absurd ho2 (scanAddresses_none_not_stopped env c2 _ _ [a] [] [] _)
    all_goals simp only [ho2])

theorem chainHeights_append_left (c : String) (l1 l2 : List Ev) (B : List Nat)
    (h1 : chainHeightsOf c l1 = []) (h2 : chainHeightsOf c l2 = B) :
    chainHeightsOf c (l1 ++ (l2 ++ [])) = B := by
  rw [chainHeightsOf_append, chainHeightsOf_append, h1, h2, chainHeightsOf_nil]
  simp

theorem chainHeights_append_right (c : String) (l1 l2 : List Ev) (B : List Nat)
    (h1 : chainHeightsOf c l1 = B) (h2 : chainHeightsOf c l2 = []) :
    chainHeightsOf c (l1 ++ (l2 ++ [])) = B := by
  rw [chainHeightsOf_append, chainHeightsOf_append, h1, h2, chainHeightsOf_nil]
  simp

/-- C10: when both block-range parameters are left out, they are
computed from the first chain only — the first chain's latest height
`e₁` gives the range `[e₁ - 100000, e₁]` — and, being overwritten in
place, the second chain is scanned over exactly that range rather than
one derived from its own latest height. -/
theorem c10_shared_default_range :
    ∀ env (c1 c2 a : String), c1 ≠ c2 → isAddress a = true →
      chainHeightsOf c2 (fetchDetailedTransactions env [c1, c2] [a] none none none).2.1
        = blockRange (env.latestHeight c1) (env.latestHeight c1 - 100000)
      ∧ chainHeightsOf c1 (fetchDetailedTransactions env [c1, c2] [a] none none none).2.1
        = blockRange (env.latestHeight c1) (env.latestHeight c1 - 100000) := by
  intro env c1 c2 a hne ha
  have ht := fetchDT_two_chains_trace env c1 c2 a
  constructor
  · rw [ht]
    refine chainHeights_append_left c2 _ _ _ ?_ ?_
    · rw [scanAddresses_single_chainHeights env c1 c2 _ _ a ha]
      simp [hne]
    · rw [scanAddresses_single_chainHeights env c2 c2 _ _ a ha]
      simp
  · rw [ht]
    refine chainHeights_append_right c1 _ _ _ ?_ ?_
    · rw [scanAddresses_single_chainHeights env c1 c1 _ _ a ha]
      simp
    · rw [scanAddresses_single_chainHeights env c2 c1 _ _ a ha]
      simp [Ne.symm hne]

/-- Upstream whose first chain has a small latest height, so the shared
default range is concretely computable. -/
def envC10 : Env :=
  { envNull with latestHeight := fun c => if c == "ethereum" then 3 else 50 }

/-- C10 witness: the second chain (`polygon`, latest height 50) is
scanned over the range derived from `ethereum`'s latest height 3. -/
theorem c10_shared_default_range_witness :
    ("ethereum" : String) ≠ "polygon"
    ∧ isAddress aLow = true
    ∧ chainHeightsOf "polygon"
        (fetchDetailedTransactions envC10 ["ethereum", "polygon"] [aLow] none none none).2.1
        = blockRange (envC10.latestHeight "ethereum")
            (envC10.latestHeight "ethereum" - 100000) :=
  ⟨by decide, by decide,
   (c10_shared_default_range envC10 "ethereum" "polygon" aLow (by decide) (by decide)).1⟩

/-! ### C5 -/

/-- Invariant of a loop result under an active bound `m`: when the scan
stopped early, exactly `m` records exist and the last trace event is
the emit of the final record; otherwise the count is still below `m`. -/
def boundOk (m : Nat) (r : LoopRes) : Prop :=
  (r.outcome = .stopped →
    r.recs.length = m ∧ ∃ pre h, r.evs = pre ++ [Ev.emit h])
  ∧ (r.outcome ≠ .stopped → r.recs.length < m)

theorem boundOk_not_stopped {m : Nat} {r : LoopRes}
    (h : r.outcome ≠ .stopped) (hlen : r.recs.length < m) : boundOk m r :=
  ⟨fun hs => absurd hs h, fun _ => hlen⟩

theorem boundOk_wrap {m : Nat} (r : LoopRes) (evs' : List Ev) (cc : CCache) (tc : TCache)
    (hr : boundOk m r) (hevs : ∃ pre0, evs' = pre0 ++ r.evs) :
    boundOk m ⟨cc, tc, r.recs, evs', r.outcome⟩ := by
  constructor
  · intro hs
    rcases hr.1 hs with ⟨hlen, pre, hh, he⟩
    rcases hevs with ⟨pre0, rfl⟩
    exact ⟨hlen, pre0 ++ pre, hh, by rw [he, List.append_assoc]⟩
  · exact hr.2

theorem boundOk_stop {m : Nat} (r : LoopRes) (evs' : List Ev) (cc : CCache) (tc : TCache)
    (hr : boundOk m r) (ho : r.outcome = .stopped) (hevs : ∃ pre0, evs' = pre0 ++ r.evs) :
    boundOk m ⟨cc, tc, r.recs, evs', .stopped⟩ := by
  rcases hr.1 ho with ⟨hlen, pre, hh, he⟩
  rcases hevs with ⟨pre0, rfl⟩
  exact ⟨fun _ => ⟨hlen, pre0 ++ pre, hh, by rw [he, List.append_assoc]⟩,
    fun h => absurd rfl h⟩

theorem processTxs_bound (env : Env) (chain address : String) (ts : Int)
    (m : Nat) (hm : 1 ≤ m) :
    ∀ txs (cc : CCache) (tc : TCache) recs, recs.length < m →
      boundOk m (processTxs env chain address (some m) ts txs cc tc recs) := by
  intro txs
  induction txs with
  | nil =>
    intro cc tc recs hlen
    exact boundOk_not_stopped (by simp [processTxs]) (by simpa [processTxs] using hlen)
  | cons tx rest ih =>
    intro cc tc recs hlen
    by_cases hmt : matchesAddress tx address = true
    · rcases hr : env.getReceipt tx.hash with msg | receipt
      · exact boundOk_not_stopped (by simp [processTxs, hmt, hr])
          (by simpa [processTxs, hmt, hr] using hlen)
      · simp only [processTxs, hmt, if_true, hr]
        generalize processDetailedTransaction env chain cc tc tx receipt address ts = p
        obtain ⟨res, cc', tc', pevs⟩ := p
        cases res with
        | error k =>
          exact boundOk_not_stopped (by simp) (by simpa using hlen)
        | ok rec =>
          dsimp only
          have hm0 : (m == 0) = false := by
            simp only [beq_eq_false_iff_ne]
            omega
          by_cases hmax : maxReached (some m) (recs ++ [rec]).length = true
          · rw [if_pos hmax]
            have hle : m ≤ (recs ++ [rec]).length := by
              simpa [maxReached, hm0] using hmax
            have hlen1 : (recs ++ [rec]).length = m := by
              simp only [List.length_append, List.length_cons, List.length_nil] at hle ⊢
              omega
            exact ⟨fun _ => ⟨hlen1, Ev.txSleep :: Ev.receiptFetch tx.hash :: pevs,
                tx.hash, rfl⟩,
              fun h => absurd rfl h⟩
          · rw [if_neg hmax]
            have hlt : (recs ++ [rec]).length < m := by
              simp only [maxReached, hm0, if_false, Bool.false_eq_true,
                decide_eq_true_eq] at hmax
              omega
            have hrec := ih cc' tc' (recs ++ [rec]) hlt
            exact boundOk_wrap _ _ _ _ hrec
              ⟨Ev.txSleep :: Ev.receiptFetch tx.hash :: (pevs ++ [Ev.emit tx.hash]),
               by simp⟩
    · simp only [processTxs, hmt, if_false, Bool.false_eq_true]
      exact ih cc tc recs hlen

theorem scanBlocks_bound (env : Env) (chain address : String) (m : Nat) (hm : 1 ≤ m) :
    ∀ heights (delay : Nat) (cc : CCache) (tc : TCache) recs, recs.length < m →
      boundOk m (scanBlocks env chain address (some m) heights delay cc tc recs) := by
  intro heights
  induction heights with
  | nil =>
    intro delay cc tc recs hlen
    exact boundOk_not_stopped (by simp [scanBlocks]) (by simpa [scanBlocks] using hlen)
  | cons n rest ih =>
    intro delay cc tc recs hlen
    rcases hb : env.getBlock chain n with msg | block
    · simp only [scanBlocks, hb]
      split
      · exact boundOk_wrap _ _ _ _ (ih _ _ _ _ hlen)
          ⟨[.sleep delay, .blockFetch chain n, .cooldown], rfl⟩
      · exact boundOk_wrap _ _ _ _ (ih _ _ _ _ hlen)
          ⟨[.sleep delay, .blockFetch chain n], rfl⟩
    · simp only [scanBlocks, hb]
      have ht := processTxs_bound env chain address block.timestamp m hm
        block.transactions cc tc recs hlen
      rcases ho : (processTxs env chain address (some m) block.timestamp
          block.transactions cc tc recs).outcome with _ | msg | _
      · simp only [ho]
        have hlt := ht.2 (by rw [ho]; exact fun h => Outcome.noConfusion h)
        exact boundOk_wrap _ _ _ _ (ih _ _ _ _ hlt)
          ⟨.sleep delay :: .blockFetch chain n :: (processTxs env chain address (some m)
            block.timestamp block.transactions cc tc recs).evs, rfl⟩
      · simp only [ho]
        have hlt := ht.2 (by rw [ho]; exact fun h => Outcome.noConfusion h)
        split
        · exact boundOk_wrap _ _ _ _ (ih _ _ _ _ hlt) ⟨.sleep delay :: .blockFetch chain n
            :: ((processTxs env chain address (some m) block.timestamp
              block.transactions cc tc recs).evs ++ [.cooldown]), by simp⟩
        · exact boundOk_wrap _ _ _ _ (ih _ _ _ _ hlt)
            ⟨.sleep delay :: .blockFetch chain n :: (processTxs env chain address (some m)
              block.timestamp block.transactions cc tc recs).evs, rfl⟩
      · simp only [ho]
        exact boundOk_stop _ _ _ _ ht ho ⟨[.sleep delay, .blockFetch chain n], rfl⟩

theorem scanAddresses_bound (env : Env) (chain : String) (sb eb : Nat)
    (m : Nat) (hm : 1 ≤ m) :
    ∀ addrs (cc : CCache) (tc : TCache) recs, recs.length < m →
      boundOk m (scanAddresses env chain (some m) sb eb addrs cc tc recs) := by
  intro addrs
  induction addrs with
  | nil =>
    intro cc tc recs hlen
    exact boundOk_not_stopped (by simp [scanAddresses]) (by simpa [scanAddresses] using hlen)
  | cons a rest ih =>
    intro cc tc recs hlen
    by_cases ha : isAddress a = true
    · simp only [scanAddresses, ha, if_true]
      have hr := scanBlocks_bound env chain a m hm (blockRange eb sb) 200 cc tc recs hlen
      rcases ho : (scanBlocks env chain a (some m) (blockRange eb sb) 200 cc tc recs).outcome
        with _ | msg | _
      · simp only [ho]
        have hlt := hr.2 (by rw [ho]; exact fun h => Outcome.noConfusion h)
        exact boundOk_wrap _ _ _ _ (ih _ _ _ hlt)
          ⟨(scanBlocks env chain a (some m) (blockRange eb sb) 200 cc tc recs).evs, rfl⟩
      · simp only [ho]
        have hlt := hr.2 (by rw [ho]; exact fun h => Outcome.noConfusion h)
        exact boundOk_wrap _ _ _ _ (ih _ _ _ hlt)
          ⟨(scanBlocks env chain a (some m) (blockRange eb sb) 200 cc tc recs).evs, rfl⟩
      · simp only [ho]
        exact boundOk_stop _ _ _ _ hr ho ⟨[], rfl⟩
    · simp only [scanAddresses, ha, if_false, Bool.false_eq_true]
      exact ih cc tc recs hlen

/-- Invariant of the chain loop's result triple (records, trace,
stopped flag) under an active bound. -/
def boundOkF (m : Nat) (t : List Record × List Ev × Bool) : Prop :=
  (t.2.2 = true → t.1.length = m ∧ ∃ pre h, t.2.1 = pre ++ [Ev.emit h])
  ∧ (t.2.2 = false → t.1.length < m)

theorem boundOkF_stop {m : Nat} (r : LoopRes) (hr : boundOk m r)
    (ho : r.outcome = .stopped) : boundOkF m (r.recs, r.evs, true) := by
  rcases hr.1 ho with ⟨hlen, pre, hh, he⟩
  exact ⟨fun _ => ⟨hlen, pre, hh, he⟩, fun h => by simp at h⟩

theorem boundOkF_go {m : Nat} (r : LoopRes) (t2 : List Record × List Ev × Bool)
    (ht2 : boundOkF m t2) : boundOkF m (t2.1, r.evs ++ t2.2.1, t2.2.2) := by
  constructor
  · intro h
    rcases ht2.1 h with ⟨hlen2, pre, hh, he⟩
    exact ⟨hlen2, r.evs ++ pre, hh, by rw [he, List.append_assoc]⟩
  · exact ht2.2

theorem fetchChains_bound (env : Env) (addrs : List String) (m : Nat) (hm : 1 ≤ m) :
    ∀ chains (sb eb : Option Nat) recs, recs.length < m →
      boundOkF m (fetchChains env addrs (some m) chains sb eb recs) := by
  intro chains
  induction chains with
  | nil =>
    intro sb eb recs hlen
    exact ⟨fun h => by simp [fetchChains] at h, fun _ => by simpa [fetchChains] using hlen⟩
  | cons c rest ih =>
    intro sb eb recs hlen
    simp only [fetchChains]
    split
    · rename_i ho
      exact boundOkF_stop _ (scanAddresses_bound env c _ _ m hm addrs [] [] recs hlen) ho
    · rename_i ho
      have hlt := (scanAddresses_bound env c _ _ m hm addrs [] [] recs hlen).2 ho
      exact boundOkF_go _ _ (ih _ _ _ hlt)

/-- C5: with an effective `maxTransactions` bound `m ≥ 1` (the
truthiness guard treats 0 as "no bound set" — see C9), the result
sequence never exceeds `m` records, and when the bound is reached the
run's very last observable event is the emit of the final matching
record: no block or receipt fetch happens beyond the ones that produced
it. -/
theorem c5_max_transactions :
    ∀ env (chains addrs : List String) (sb eb : Option Nat) (m : Nat), 1 ≤ m →
      (fetchDetailedTransactions env chains addrs (some m) sb eb).1.length ≤ m
      ∧ ((fetchDetailedTransactions env chains addrs (some m) sb eb).1.length = m →
        ∃ pre h, (fetchDetailedTransactions env chains addrs (some m) sb eb).2.1
          = pre ++ [Ev.emit h]) := by
  intro env chains addrs sb eb m hm
  have hb := fetchChains_bound env addrs m hm chains sb eb [] (by simpa using hm)
  simp only [fetchDetailedTransactions]
  by_cases hf : (fetchChains env addrs (some m) chains sb eb []).2.2 = true
  · rcases hb.1 hf with ⟨hlen, pre, hh, he⟩
    exact ⟨le_of_eq hlen, fun _ => ⟨pre, hh, he⟩⟩
  · have hlt := hb.2 (by simpa using hf)
    exact ⟨le_of_lt hlt, fun he => absurd he (by omega)⟩

/-- C5 witness: on the mock chain with one matching transaction per
block and bound 1, the scan returns exactly one record. -/
theorem c5_max_transactions_witness :
    1 ≤ 1
    ∧ ((fetchDetailedTransactions envC5 ["ethereum"] [aLow] (some 1)
          (some 5) (some 6)).1.length ≤ 1
      ∧ ((fetchDetailedTransactions envC5 ["ethereum"] [aLow] (some 1)
            (some 5) (some 6)).1.length = 1 →
        ∃ pre h, (fetchDetailedTransactions envC5 ["ethereum"] [aLow] (some 1)
            (some 5) (some 6)).2.1 = pre ++ [Ev.emit h])) :=
  ⟨by decide,
   c5_max_transactions envC5 ["ethereum"] [aLow] (some 5) (some 6) 1 (by decide)⟩
